import Mathlib

/-!
Shallow embedding of the Synchron voice-interaction client (`src/App.tsx`).

The mutable React/ref state of the component is modelled as a record
`AppState`; each callback branch of the source becomes a pure state
transformer.  Times and durations on the output audio clock are modelled
as rationals; JavaScript number-to-Int16Array coercion is modelled
exactly (truncation toward zero, wrap modulo 2^16, signed read-back).
-/

namespace Synchron

/-- Role tag of a transcript entry, mirroring the union type
of the source (the source spells the model role as the string ai). -/
inductive Role where
  | user
  | ai
deriving DecidableEq, Repr

/-- One committed conversation-history entry, as stored in the
history React state of the source. -/
structure Entry where
  text : String
  role : Role
deriving DecidableEq, Repr

/-- The pair of live transcript buffers, one per role, mirroring both the
transcription React state and the transcriptionRef mutable ref. -/
structure Transcription where
  user : String
  ai : String
deriving DecidableEq, Repr

/-- One scheduled playback source: the AudioBufferSourceNode created in the
audio-part branch, remembered by its scheduled start time and its buffer
duration on the output clock. -/
structure Source where
  start : ℚ
  duration : ℚ
deriving DecidableEq, Repr

/-- The component state of the source: isActive and isSyncing flags,
whether liveSession.current holds a session handle, the nextStartTime
playback cursor, the sources set of scheduled playback nodes (kept as a
list in scheduling order), the displayed transcription state, the
transcriptionRef accumulator, and the history state. -/
structure AppState where
  isActive : Bool
  isSyncing : Bool
  hasLiveSession : Bool
  nextStartTime : ℚ
  sources : List Source
  transcription : Transcription
  transcriptionRef : Transcription
  history : List Entry
deriving DecidableEq, Repr

/-- Both transcript buffers empty, the value written by the resets in the
source. -/
def emptyTranscription : Transcription :=
  { user := "", ai := "" }

/-- The initial React state of the component: flags false, no session,
cursor 0, no sources, empty transcripts, empty history. -/
def initialState : AppState :=
  { isActive := false
    isSyncing := false
    hasLiveSession := false
    nextStartTime := 0
    sources := []
    transcription := emptyTranscription
    transcriptionRef := emptyTranscription
    history := [] }

/-- The stopSession callback of the source: clears the flags, closes and
drops the session handle, stops and clears every playback source, zeroes
nextStartTime, and clears both the displayed transcription and the
transcriptionRef accumulator.  The history state is not touched. -/
def stopSession (s : AppState) : AppState :=
  { s with
    isActive := false
    isSyncing := false
    hasLiveSession := false
    sources := []
    nextStartTime := 0
    transcription := emptyTranscription
    transcriptionRef := emptyTranscription }

/-- The onopen callback of the source, restricted to its state effect:
sets isActive and clears isSyncing (the capture wiring it also performs is
not part of the modelled state). -/
def onopen (s : AppState) : AppState :=
  { s with isActive := true, isSyncing := false }

/-- The onclose callback of the source: it only sets isActive and
isSyncing to false. -/
def onclose (s : AppState) : AppState :=
  { s with isActive := false, isSyncing := false }

/-- The onerror callback of the source: it calls stopSession. -/
def onerror (s : AppState) : AppState :=
  stopSession s

/-- The interrupted branch of the onmessage callback: stops every source
in the sources set (stop failures are swallowed), clears the set, and sets
nextStartTime to 0. -/
def interruptedBranch (s : AppState) : AppState :=
  { s with sources := [], nextStartTime := 0 }

/-- First half of the audio-part branch, up to the await of
decodeAudioData: the clamp nextStartTime = max nextStartTime currentTime,
performed at output-clock reading now. -/
def audioPartPhase1 (s : AppState) (now : ℚ) : AppState :=
  { s with nextStartTime := max s.nextStartTime now }

/-- Second half of the audio-part branch, the continuation that runs after
decodeAudioData resolves with a buffer of duration dur: creates a source,
starts it at the current value of nextStartTime, advances nextStartTime by
dur, and adds the source to the sources set. -/
def audioPartPhase2 (s : AppState) (dur : ℚ) : AppState :=
  { s with
    sources := s.sources ++ [{ start := s.nextStartTime, duration := dur }]
    nextStartTime := s.nextStartTime + dur }

/-- One full, uninterleaved run of the audio-part branch for a chunk whose
decoded buffer has duration dur, at output-clock reading now: exactly
phase 1 followed by phase 2. -/
def scheduleChunk (s : AppState) (dur now : ℚ) : AppState :=
  audioPartPhase2 (audioPartPhase1 s now) dur

/-- The for-loop of the onmessage callback over the inline audio parts of
one message, each part given by its decoded buffer duration, all at
output-clock reading now. -/
def processParts (s : AppState) (now : ℚ) (ds : List ℚ) : AppState :=
  ds.foldl (fun st d => scheduleChunk st d now) s

/-- The inputTranscription branch of onmessage: appends the fragment to
the user field of transcriptionRef, and appends it to the user field of
the displayed transcription state (spread of the previous value). -/
def appendUserStep (s : AppState) (t : String) : AppState :=
  { s with
    transcriptionRef := { s.transcriptionRef with user := s.transcriptionRef.user ++ t }
    transcription := { s.transcription with user := s.transcription.user ++ t } }

/-- The outputTranscription branch of onmessage: appends the fragment to
the ai field of transcriptionRef, then replaces the displayed
transcription state by an empty user string paired with the updated
accumulator text. -/
def appendModelStep (s : AppState) (t : String) : AppState :=
  { s with
    transcriptionRef := { s.transcriptionRef with ai := s.transcriptionRef.ai ++ t }
    transcription := { user := "", ai := s.transcriptionRef.ai ++ t } }

/-- JavaScript array .slice(-2): the last two elements, or the whole list
when it is shorter than two. -/
def sliceLast2 {α : Type} (l : List α) : List α :=
  l.drop (l.length - 2)

/-- The turnComplete branch of onmessage: pushes an entry for the user
buffer when it is non-empty, then one for the ai buffer when it is
non-empty, appends them to history, keeps only the last two entries, and
clears both the displayed transcription and the accumulator. -/
def commitTurn (s : AppState) : AppState :=
  { s with
    history := sliceLast2 (s.history
      ++ (if s.transcriptionRef.user = "" then [] else [{ text := s.transcriptionRef.user, role := Role.user }])
      ++ (if s.transcriptionRef.ai = "" then [] else [{ text := s.transcriptionRef.ai, role := Role.ai }]))
    transcription := emptyTranscription
    transcriptionRef := emptyTranscription }

/-- The serverContent payload of one inbound message, with the fields the
onmessage callback inspects: durations of the decoded inline audio parts,
the optional transcription fragments, and the turnComplete and
interrupted flags. -/
structure ServerContent where
  modelTurnParts : List ℚ
  inputTranscription : Option String
  outputTranscription : Option String
  turnComplete : Bool
  interrupted : Bool

/-- The onmessage callback of the source, at output-clock reading now,
applying its branches in source order: audio parts, then
inputTranscription, then outputTranscription, then turnComplete, then
interrupted. -/
def onmessage (s : AppState) (now : ℚ) (m : ServerContent) : AppState :=
  let s1 := processParts s now m.modelTurnParts
  let s2 := match m.inputTranscription with
    | some t => appendUserStep s1 t
    | none => s1
  let s3 := match m.outputTranscription with
    | some t => appendModelStep s2 t
    | none => s2
  let s4 := if m.turnComplete then commitTurn s3 else s3
  if m.interrupted then interruptedBranch s4 else s4

/-- An externally observable event driving the component: an inbound
message at a given output-clock reading, an explicit stop, the remote
open, close, or error callbacks. -/
inductive Event where
  | message (now : ℚ) (m : ServerContent)
  | stop
  | openEv
  | closeEv
  | errorEv

/-- Dispatch of one event to the corresponding callback of the source. -/
def step (s : AppState) (e : Event) : AppState :=
  match e with
  | .message now m => onmessage s now m
  | .stop => stopSession s
  | .openEv => onopen s
  | .closeEv => onclose s
  | .errorEv => onerror s

/-- Run of a sequence of events from a state. -/
def run (s : AppState) (es : List Event) : AppState :=
  es.foldl step s

/-- A transcript append event: an inputTranscription fragment or an
outputTranscription fragment. -/
inductive TrOp where
  | userT (t : String)
  | modelT (t : String)

/-- Whether a transcript append event is a user fragment. -/
def TrOp.isUserOp : TrOp → Bool
  | .userT _ => true
  | .modelT _ => false

/-- Run of a sequence of transcript append events from a state. -/
def runTr (s : AppState) (ops : List TrOp) : AppState :=
  ops.foldl (fun st op => match op with
    | .userT t => appendUserStep st t
    | .modelT t => appendModelStep st t) s

/-- JavaScript truncation toward zero of a number, the first step of the
ToInt16 abstract operation applied on assignment into an Int16Array. -/
def jsTrunc (x : ℚ) : ℤ :=
  if 0 ≤ x then ⌊x⌋ else -⌊-x⌋

/-- The ToInt16 abstract operation: truncate toward zero, reduce modulo
2^16 to a non-negative residue, and read the residue back as a signed
16-bit value. -/
def toInt16 (x : ℚ) : ℤ :=
  if 32768 ≤ jsTrunc x % 65536 then jsTrunc x % 65536 - 65536 else jsTrunc x % 65536

/-- One sample of the onaudioprocess handler of the source: the statement
storing inputData i times 32768 into the Int16Array. -/
def pcmSample (sample : ℚ) : ℤ :=
  toInt16 (sample * 32768)

/-- The whole conversion loop of the onaudioprocess handler over one
captured block. -/
def pcmFrame (block : List ℚ) : List ℤ :=
  block.map pcmSample

/-- Start times the specification text predicts for a sequence of chunk
durations scheduled back to back from a given first start time.  This
definition follows the words of the spec, for comparison with
processParts which embeds the code. -/
def claimedSources : ℚ → List ℚ → List Source
  | _, [] => []
  | t, d :: ds => { start := t, duration := d } :: claimedSources (t + d) ds

/-! ## Helper lemmas -/

theorem sliceLast2_length {α : Type} (l : List α) : (sliceLast2 l).length ≤ 2 := by
  simp only [sliceLast2, List.length_drop]
  omega

theorem sliceLast2_of_length_le {α : Type} (l : List α) (h : l.length ≤ 2) :
    sliceLast2 l = l := by
  unfold sliceLast2
  have h2 : l.length - 2 = 0 := by omega
  rw [h2, List.drop_zero]

theorem sliceLast2_isSuffix {α : Type} (l : List α) : (sliceLast2 l).IsSuffix l :=
  ⟨l.take (l.length - 2), List.take_append_drop _ l⟩

theorem processParts_history (s : AppState) (now : ℚ) (ds : List ℚ) :
    (processParts s now ds).history = s.history := by
  induction ds generalizing s with
  | nil => rfl
  | cons d ds ih =>
    show (processParts (scheduleChunk s d now) now ds).history = s.history
    rw [ih]
    rfl

theorem appendUserStep_history (s : AppState) (t : String) :
    (appendUserStep s t).history = s.history := rfl

theorem appendModelStep_history (s : AppState) (t : String) :
    (appendModelStep s t).history = s.history := rfl

theorem interruptedBranch_history (s : AppState) :
    (interruptedBranch s).history = s.history := rfl

theorem commitTurn_history (s : AppState) :
    (commitTurn s).history = sliceLast2 (s.history
      ++ (if s.transcriptionRef.user = "" then [] else [{ text := s.transcriptionRef.user, role := Role.user }])
      ++ (if s.transcriptionRef.ai = "" then [] else [{ text := s.transcriptionRef.ai, role := Role.ai }])) := rfl

theorem onmessage_history_length (s : AppState) (now : ℚ) (m : ServerContent)
    (h : s.history.length ≤ 2) : (onmessage s now m).history.length ≤ 2 := by
  unfold onmessage
  cases m.inputTranscription <;> cases m.outputTranscription <;>
    cases m.turnComplete <;> cases m.interrupted <;>
      simp [processParts_history, appendUserStep_history, appendModelStep_history,
        interruptedBranch_history, commitTurn_history, sliceLast2_length, h]

theorem step_history_length (s : AppState) (e : Event)
    (h : s.history.length ≤ 2) : (step s e).history.length ≤ 2 := by
  cases e with
  | message now m => exact onmessage_history_length s now m h
  | stop => exact h
  | openEv => exact h
  | closeEv => exact h
  | errorEv => exact h

theorem run_history_length (es : List Event) (s : AppState)
    (h : s.history.length ≤ 2) : (run s es).history.length ≤ 2 := by
  induction es generalizing s with
  | nil => exact h
  | cons e es ih => exact ih (step s e) (step_history_length s e h)

theorem scheduleChunk_sources (s : AppState) (dur now : ℚ) :
    (scheduleChunk s dur now).sources
      = s.sources ++ [{ start := max s.nextStartTime now, duration := dur }] := rfl

theorem scheduleChunk_nextStartTime (s : AppState) (dur now : ℚ) :
    (scheduleChunk s dur now).nextStartTime = max s.nextStartTime now + dur := rfl

theorem processParts_sources_of_le (now : ℚ) (ds : List ℚ) :
    ∀ s : AppState, now ≤ s.nextStartTime → (∀ d ∈ ds, 0 ≤ d) →
      (processParts s now ds).sources = s.sources ++ claimedSources s.nextStartTime ds := by
  induction ds with
  | nil =>
    intro s _ _
    simp [processParts, claimedSources]
  | cons d ds ih =>
    intro s hle hd
    have hd0 : 0 ≤ d := hd d (List.mem_cons_self d ds)
    have hmax : max s.nextStartTime now = s.nextStartTime := max_eq_left hle
    have hle2 : now ≤ (scheduleChunk s d now).nextStartTime := by
      rw [scheduleChunk_nextStartTime]
      have := le_max_right s.nextStartTime now
      linarith
    have hrec := ih (scheduleChunk s d now) hle2 (fun x hx => hd x (List.mem_cons_of_mem d hx))
    show (processParts (scheduleChunk s d now) now ds).sources
      = s.sources ++ claimedSources s.nextStartTime (d :: ds)
    rw [hrec, scheduleChunk_sources, scheduleChunk_nextStartTime, hmax]
    simp [claimedSources, List.append_assoc]

theorem jsTrunc_le (x : ℚ) (h : x < 32768) : jsTrunc x ≤ 32767 := by
  unfold jsTrunc
  split
  · have hfl : ⌊x⌋ < 32768 := by
      rw [Int.floor_lt]
      exact_mod_cast h
    omega
  · next hx =>
    have h0 : (0 : ℚ) ≤ -x := by
      have := lt_of_not_le hx
      linarith
    have hfl : (0 : ℤ) ≤ ⌊-x⌋ := Int.le_floor.mpr (by exact_mod_cast h0)
    omega

theorem jsTrunc_ge (x : ℚ) (h : -32768 ≤ x) : -32768 ≤ jsTrunc x := by
  unfold jsTrunc
  split
  · next hx =>
    have hfl : (0 : ℤ) ≤ ⌊x⌋ := Int.le_floor.mpr (by exact_mod_cast hx)
    omega
  · have h1 : -x ≤ ((32768 : ℤ) : ℚ) := by
      push_cast
      linarith
    have h2 : ⌊-x⌋ ≤ (32768 : ℤ) := by
      have := Int.floor_mono h1
      rwa [Int.floor_intCast] at this
    omega

theorem toInt16_eq_jsTrunc (x : ℚ) (h1 : -32768 ≤ jsTrunc x) (h2 : jsTrunc x ≤ 32767) :
    toInt16 x = jsTrunc x := by
  unfold toInt16
  split <;> omega

theorem runTr_ai_eq (ops : List TrOp) :
    ∀ s : AppState, s.transcription.ai = s.transcriptionRef.ai →
      (runTr s ops).transcription.ai = (runTr s ops).transcriptionRef.ai := by
  induction ops with
  | nil => intro s h; exact h
  | cons op ops ih =>
    intro s h
    cases op with
    | userT t => exact ih (appendUserStep s t) (by simp [appendUserStep, h])
    | modelT t => exact ih (appendModelStep s t) (by simp [appendModelStep])

theorem runTr_user_eq (ops : List TrOp) :
    ∀ s : AppState, ops.all TrOp.isUserOp = true →
      s.transcription.user = s.transcriptionRef.user →
      (runTr s ops).transcription.user = (runTr s ops).transcriptionRef.user := by
  induction ops with
  | nil => intro s _ h; exact h
  | cons op ops ih =>
    intro s hall h
    cases op with
    | userT t =>
      have hall2 : ops.all TrOp.isUserOp = true := by
        simp only [List.all_eq_true] at hall ⊢
        intro x hx
        exact hall x (List.mem_cons_of_mem _ hx)
      exact ih (appendUserStep s t) hall2 (by simp [appendUserStep, h])
    | modelT t =>
      simp [List.all_cons, TrOp.isUserOp] at hall

/-! ## Claims -/

/-- Claim C1, counterexample: the claim says the interrupted branch resets
the PlaybackCursor to the output clock's current time.  Take the state
reached by scheduling one chunk of duration 1 at clock time 5 and then
handling an interruption: the clock is at least 5 there, yet the code sets
nextStartTime to 0, not to the clock time. -/
theorem interrupt_cursor_not_clock :
    (interruptedBranch (scheduleChunk (onopen initialState) 1 5)).nextStartTime = 0
    ∧ (interruptedBranch (scheduleChunk (onopen initialState) 1 5)).nextStartTime ≠ 5 := by
  decide

/-- Claim C1, amended: for every state, handling an inbound interruption
signal clears the sources set to empty and resets nextStartTime to 0 (not
to the clock time); the max-clamp of the next audio-part branch then
raises the cursor to the clock reading, so the next chunk still starts at
the current time. -/
theorem interrupt_clears_set_and_zeroes_cursor (s : AppState) :
    (interruptedBranch s).sources = []
    ∧ (interruptedBranch s).nextStartTime = 0
    ∧ ∀ now : ℚ, (audioPartPhase1 (interruptedBranch s) now).nextStartTime = max 0 now :=
  ⟨rfl, rfl, fun _ => rfl⟩

/-- Claim C2, counterexample: in a state with an open session and one
active playback source, the onclose callback neither clears the sources
set nor performs the teardown the onerror callback performs, so remote
close is not identical to the remote-error path. -/
theorem close_not_error_teardown :
    (onclose (scheduleChunk { initialState with isActive := true, hasLiveSession := true } 2 5)).sources ≠ []
    ∧ onclose (scheduleChunk { initialState with isActive := true, hasLiveSession := true } 2 5)
        ≠ onerror (scheduleChunk { initialState with isActive := true, hasLiveSession := true } 2 5) := by
  decide

/-- Claim C2, amended: a remote close signal only sets the isActive and
isSyncing flags to false; it leaves the session handle, the sources set,
the cursor, both transcript buffers, and the history untouched.  Only the
remote-error callback (and explicit stop) runs the full stopSession
teardown. -/
theorem close_only_resets_flags (s : AppState) :
    (onclose s).isActive = false
    ∧ (onclose s).isSyncing = false
    ∧ (onclose s).hasLiveSession = s.hasLiveSession
    ∧ (onclose s).sources = s.sources
    ∧ (onclose s).nextStartTime = s.nextStartTime
    ∧ (onclose s).transcription = s.transcription
    ∧ (onclose s).transcriptionRef = s.transcriptionRef
    ∧ (onclose s).history = s.history
    ∧ onerror s = stopSession s :=
  ⟨rfl, rfl, rfl, rfl, rfl, rfl, rfl, rfl, rfl⟩

/-- Claim C3, counterexample: at the sample 3/65536 (a value exactly
representable as a binary float), the product with 32768 is 3/2; the
Int16Array store truncates it to 1, while round gives 2, so the conversion
is not round of the scaled sample. -/
theorem pcm_sample_not_round :
    ((-1 : ℚ) ≤ 3 / 65536 ∧ (3 / 65536 : ℚ) < 1)
    ∧ pcmSample (3 / 65536) ≠ round ((3 / 65536 : ℚ) * 32768) := by
  have hprod : ((3 : ℚ) / 65536) * 32768 = 3 / 2 := by norm_num
  have hfloor : ⌊(3 / 2 : ℚ)⌋ = 1 := by
    apply Int.floor_eq_iff.mpr
    constructor <;> norm_num
  have hjs : jsTrunc (3 / 2 : ℚ) = 1 := by
    unfold jsTrunc
    rw [if_pos (by norm_num : (0 : ℚ) ≤ 3 / 2)]
    exact hfloor
  have hto : toInt16 (3 / 2 : ℚ) = 1 := by
    unfold toInt16
    rw [hjs]
    norm_num
  have hround : round ((3 : ℚ) / 2) = 2 := by
    rw [round_eq]
    have hsum : (3 / 2 : ℚ) + 1 / 2 = 2 := by norm_num
    rw [hsum]
    apply Int.floor_eq_iff.mpr
    constructor <;> norm_num
  refine ⟨⟨by norm_num, by norm_num⟩, ?_⟩
  show toInt16 ((3 / 65536 : ℚ) * 32768) ≠ round ((3 / 65536 : ℚ) * 32768)
  rw [hprod, hto, hround]
  norm_num

/-- Claim C3, amended: for every sample value in the interval from -1
inclusive to 1 exclusive, the 16-bit conversion equals truncation toward
zero of sample times 32768 (the ToInt16 store semantics, not rounding),
the result lies in the signed 16-bit range, and — the conversion being a
pure function of the sample — it is deterministic. -/
theorem pcm_conversion_is_truncation (s : ℚ) (h1 : -1 ≤ s) (h2 : s < 1) :
    pcmSample s = jsTrunc (s * 32768)
    ∧ -32768 ≤ pcmSample s ∧ pcmSample s ≤ 32767 := by
  have hx1 : -32768 ≤ s * 32768 := by linarith
  have hx2 : s * 32768 < 32768 := by linarith
  have hge := jsTrunc_ge (s * 32768) hx1
  have hle := jsTrunc_le (s * 32768) hx2
  have heq : toInt16 (s * 32768) = jsTrunc (s * 32768) := toInt16_eq_jsTrunc _ hge hle
  unfold pcmSample
  refine ⟨heq, ?_, ?_⟩
  · rw [heq]; exact hge
  · rw [heq]; exact hle

/-- Claim C3, witness: the amended theorem applied at the sample -1/2,
whose conversion is -16384. -/
theorem pcm_conversion_truncation_witness :
    ((-1 : ℚ) ≤ -1 / 2 ∧ (-1 / 2 : ℚ) < 1)
    ∧ (pcmSample (-1 / 2) = jsTrunc ((-1 / 2 : ℚ) * 32768)
        ∧ -32768 ≤ pcmSample (-1 / 2) ∧ pcmSample (-1 / 2) ≤ 32767) :=
  ⟨by constructor <;> norm_num,
    pcm_conversion_is_truncation (-1 / 2) (by norm_num) (by norm_num)⟩

/-- Claim C4: the turnComplete branch appends exactly one history entry
per non-empty accumulator buffer, the user entry before the ai entry,
truncates the history to its last two entries, and clears both the
displayed transcription and the accumulator; when both buffers are empty
(and the history respects its bound) the history is left unchanged. -/
theorem commitTurn_reconciles (s : AppState) (hlen : s.history.length ≤ 2) :
    (commitTurn s).history
      = sliceLast2 (s.history
        ++ (if s.transcriptionRef.user = "" then [] else [{ text := s.transcriptionRef.user, role := Role.user }])
        ++ (if s.transcriptionRef.ai = "" then [] else [{ text := s.transcriptionRef.ai, role := Role.ai }]))
    ∧ ((commitTurn s).history).length ≤ 2
    ∧ (commitTurn s).transcription = emptyTranscription
    ∧ (commitTurn s).transcriptionRef = emptyTranscription
    ∧ (s.transcriptionRef.user = "" → s.transcriptionRef.ai = "" →
        (commitTurn s).history = s.history) := by
  refine ⟨rfl, sliceLast2_length _, rfl, rfl, ?_⟩
  intro hu ha
  rw [commitTurn_history, if_pos hu, if_pos ha, List.append_nil, List.append_nil]
  exact sliceLast2_of_length_le _ hlen

/-- Claim C4, witness: committing a turn from the initial state with the
user buffer holding hello and the ai buffer empty appends exactly the one
user entry. -/
theorem commitTurn_reconciles_witness :
    (commitTurn { initialState with transcriptionRef := { user := "hello", ai := "" } }).history
      = [{ text := "hello", role := Role.user }] := by
  have h := commitTurn_reconciles
    { initialState with transcriptionRef := { user := "hello", ai := "" } } (by decide)
  rw [h.1]
  decide

/-- Claim C5: scheduling a sequence of chunks in arrival order at
output-clock reading now, with non-negative durations and no intervening
interruption, appends sources whose start times are exactly the spec's
prediction: the first equals the cursor clamped to the clock, and each
later one equals the previous start plus the previous duration — zero
gap, zero overlap, in call order. -/
theorem schedule_gapless (s : AppState) (now : ℚ) (ds : List ℚ)
    (hd : ∀ d ∈ ds, 0 ≤ d) :
    (processParts s now ds).sources
      = s.sources ++ claimedSources (max s.nextStartTime now) ds := by
  cases ds with
  | nil => simp [processParts, claimedSources]
  | cons d ds2 =>
    have hd0 : 0 ≤ d := hd d (List.mem_cons_self d ds2)
    have hle2 : now ≤ (scheduleChunk s d now).nextStartTime := by
      rw [scheduleChunk_nextStartTime]
      have := le_max_right s.nextStartTime now
      linarith
    have hrec := processParts_sources_of_le now ds2 (scheduleChunk s d now) hle2
      (fun x hx => hd x (List.mem_cons_of_mem d hx))
    show (processParts (scheduleChunk s d now) now ds2).sources
      = s.sources ++ claimedSources (max s.nextStartTime now) (d :: ds2)
    rw [hrec, scheduleChunk_sources, scheduleChunk_nextStartTime]
    simp [claimedSources, List.append_assoc]

/-- Claim C5, witness: scheduling chunks of durations 2 and 5 at clock
time 3 from the initial state yields start times 3 and 5. -/
theorem schedule_gapless_witness :
    (processParts initialState 3 [2, 5]).sources
      = [{ start := 3, duration := 2 }, { start := 5, duration := 5 }] := by
  have h := schedule_gapless initialState 3 [2, 5] (by decide)
  rw [h]
  norm_num [claimedSources, initialState, max_def]

/-- Claim C6: after any sequence of events (messages, including turn
commits, plus stop, open, close, error) from the initial state, the
history never holds more than two entries; and what the slice keeps is
always a suffix of the list it is applied to, so eviction removes the
oldest entries first. -/
theorem history_bounded (es : List Event) :
    ((run initialState es).history).length ≤ 2
    ∧ ∀ l : List Entry, (sliceLast2 l).IsSuffix l :=
  ⟨run_history_length es initialState (by decide),
    fun l => sliceLast2_isSuffix l⟩

/-- Claim C7, counterexample: the cursor is not always at or above the
output clock.  In the state reached by scheduling a chunk at clock time 5
and then handling an interruption — the clock being at least 5 there —
the cursor is 0, strictly below the clock. -/
theorem cursor_below_clock :
    (interruptedBranch (scheduleChunk (onopen initialState) 1 5)).nextStartTime < 5 := by
  decide

/-- Claim C7, amended: immediately after each audio-part scheduling, the
cursor is at or above the clock reading of that call (for a non-negative
buffer duration); the interrupted branch and stopSession instead reset it
to 0, possibly below the clock, and the bound is restored by the
max-clamp of the next scheduling. -/
theorem cursor_ge_clock_after_schedule (s : AppState) (dur now : ℚ) (h : 0 ≤ dur) :
    now ≤ (scheduleChunk s dur now).nextStartTime := by
  rw [scheduleChunk_nextStartTime]
  have := le_max_right s.nextStartTime now
  linarith

/-- Claim C7, witness: the amended theorem at the initial state, duration
1, clock time 5. -/
theorem cursor_ge_clock_witness :
    (0 : ℚ) ≤ 1 ∧ (5 : ℚ) ≤ (scheduleChunk initialState 1 5).nextStartTime :=
  ⟨by norm_num, cursor_ge_clock_after_schedule initialState 1 5 (by norm_num)⟩

/-- Claim C8: stopSession leaves the history untouched — also after the
restart completes through onopen — while it clears both transcript
buffers, zeroes the cursor, and clears the sources set. -/
theorem stop_preserves_history (s : AppState) :
    (stopSession s).history = s.history
    ∧ (onopen (stopSession s)).history = s.history
    ∧ (stopSession s).transcription = emptyTranscription
    ∧ (stopSession s).transcriptionRef = emptyTranscription
    ∧ (stopSession s).nextStartTime = 0
    ∧ (stopSession s).sources = [] :=
  ⟨rfl, rfl, rfl, rfl, rfl, rfl⟩

/-- Claim C9, counterexample: after appending user text hi, the displayed
user transcription is hi; a subsequent model append sets the displayed
user text to the empty string even though the user accumulator still
holds hi — the exposed user text is erased, not merely out-prioritised. -/
theorem appendModel_erases_displayed_user :
    (appendUserStep initialState "hi").transcription.user = "hi"
    ∧ (appendModelStep (appendUserStep initialState "hi") "yo").transcription.user = ""
    ∧ (appendModelStep (appendUserStep initialState "hi") "yo").transcriptionRef.user = "hi" := by
  decide

/-- Claim C9, amended: after any sequence of appends from the initial
state the displayed ai text equals the ai accumulator; a model append
leaves the user accumulator unchanged but resets the displayed user text
to empty, so the displayed user text equals the user accumulator only for
sequences containing no model append. -/
theorem display_tracks_accumulators (ops : List TrOp) :
    (runTr initialState ops).transcription.ai = (runTr initialState ops).transcriptionRef.ai
    ∧ (∀ (s : AppState) (t : String),
        (appendModelStep s t).transcriptionRef.user = s.transcriptionRef.user
        ∧ (appendModelStep s t).transcription.user = "")
    ∧ (ops.all TrOp.isUserOp = true →
        (runTr initialState ops).transcription.user
          = (runTr initialState ops).transcriptionRef.user) :=
  ⟨runTr_ai_eq ops initialState rfl,
    fun _ _ => ⟨rfl, rfl⟩,
    fun h => runTr_user_eq ops initialState h rfl⟩

/-- Claim C9, witness: the amended theorem on the one-element sequence
appending user text hi, whose display equals the accumulator. -/
theorem display_tracks_witness :
    ([TrOp.userT "hi"].all TrOp.isUserOp = true)
    ∧ (runTr initialState [TrOp.userT "hi"]).transcription.user
        = (runTr initialState [TrOp.userT "hi"]).transcriptionRef.user :=
  ⟨rfl, (display_tracks_accumulators [TrOp.userT "hi"]).2.2 rfl⟩

/-- Claim C10: there is no relevance guard on the decode continuation.
If the interrupted branch runs between the cursor clamp and the decode
completion of a chunk (clock 5, duration 2), the resumed continuation
still creates a source — started at the post-interrupt cursor 0, meaning
immediately — adds it to the cleared sources set, and advances the
cursor: the stale PlaybackHandle is resurrected, not discarded.  The last
conjunct records that the two phases compose to the uninterleaved
schedule, so the split is exactly the await point of the source. -/
theorem stale_decode_resurrects_handle :
    (audioPartPhase2 (interruptedBranch (audioPartPhase1 (onopen initialState) 5)) 2).sources
      = [{ start := 0, duration := 2 }]
    ∧ (audioPartPhase2 (interruptedBranch (audioPartPhase1 (onopen initialState) 5)) 2).nextStartTime = 2
    ∧ ∀ (s : AppState) (dur now : ℚ),
        scheduleChunk s dur now = audioPartPhase2 (audioPartPhase1 s now) dur :=
  ⟨by simp [audioPartPhase2, interruptedBranch, audioPartPhase1, onopen, initialState],
    by norm_num [audioPartPhase2, interruptedBranch, audioPartPhase1, onopen, initialState],
    fun _ _ _ => rfl⟩

end Synchron
